import Mathlib

/-!
Verification of the resource-mirroring and cascading-deletion core of the
study-buddy repository, as a shallow embedding in Lean 4.

The embedding follows `src/src/utils.py` (lifecycle operations on the local
MongoDB mirror of remote OpenAI resources), `src/src/models.py` (the document
schema), and the citation-footnote pass of `src/src/ui.py` /
`src/main.py` (`handle_chat_interface`).

Modelling conventions:
* Remote identifiers (file ids, vector-store ids, assistant ids, thread ids)
  are `Nat`; users are identified by a `Nat` as well.
* `datetime.now(timezone.utc)` is modelled by a strictly monotone clock held
  in the state: each `now()` read returns the clock and increments it.
* The remote provider is deterministic in the happy path; provider-reported
  deletion outcomes (`response.deleted`, or an exception from the delete
  call, which the source handles identically by returning `False`) are
  injected through a `Rem` oracle of `Nat → Bool` functions.
* MongoDB documents carry unique indexes on their remote-id fields
  (`unique=True` in `models.py`), so `document.delete()` is modelled as
  filtering the mirror list by that id, and `.first()` as `List.find?`.
-/

namespace StudyBuddy

/-! ### Python `str.replace` and the citation-footnote pass

`handle_chat_interface` (src/src/ui.py lines 516-521 and src/main.py lines
462-467) rewrites the assistant response by
`text = text.replace(annotation.text, f' <sup>[{index}]</sup>')`
for `index` enumerated from 1.  Python's `str.replace` replaces every
non-overlapping occurrence, scanning left to right. -/

/-- One left-to-right pass replacing non-overlapping occurrences of `pat`
by `rep`.  `fuel` bounds the recursion and is instantiated with the length
of the subject string, which suffices for a nonempty pattern. -/
def pyReplaceGo : Nat → List Char → List Char → List Char → List Char
  | _, [], _, _ => []
  | 0, s, _, _ => s
  | fuel + 1, c :: rest, pat, rep =>
    if pat ≠ [] ∧ (c :: rest).take pat.length = pat then
      rep ++ pyReplaceGo fuel ((c :: rest).drop pat.length) pat rep
    else
      c :: pyReplaceGo fuel rest pat rep

/-- Python `s.replace(pat, rep)`.  For an empty pattern Python inserts `rep`
before every character and once at the end. -/
def pyReplace (s pat rep : String) : String :=
  if pat.data = [] then
    ⟨rep.data ++ s.data.foldr (fun c acc => c :: (rep.data ++ acc)) []⟩
  else
    ⟨pyReplaceGo s.data.length s.data pat.data rep.data⟩

/-- The footnote marker `f' <sup>[{index}]</sup>'` — note the leading
space present in the source's format string. -/
def supMarker (index : Nat) : String :=
  " <sup>[" ++ toString index ++ "]</sup>"

/-- The loop `for index, annotation in enumerate(annotations, start=1):
text = text.replace(annotation.text, f' <sup>[{index}]</sup>')`, with
`cites` the list of matched source spans (`annotation.text`). -/
def citeFootnoteGo : String → List String → Nat → String
  | text, [], _ => text
  | text, cite :: rest, index =>
    citeFootnoteGo (pyReplace text cite (supMarker index)) rest (index + 1)

/-- The whole footnote pass applied to an assistant response. -/
def citeFootnotes (text : String) (cites : List String) : String :=
  citeFootnoteGo text cites 1

/-! ### The local mirror data model (src/src/models.py) -/

/-- Mirror of the `File` document: `file_id` (unique), `name`, `user`,
`created_at`. -/
structure FileRec where
  file_id : Nat
  name : String
  user : Nat
  created_at : Nat
deriving DecidableEq

/-- Mirror of the `VectorStore` document: `vector_store_id` (unique),
`name`, `user`, `created_at`. -/
structure VSRec where
  vector_store_id : Nat
  name : String
  user : Nat
  created_at : Nat
deriving DecidableEq

/-- Mirror of the `Assistant` document: `assistant_id` (unique), `name`,
a reference to its `VectorStore` (by the store's unique id), `user`,
`created_at`. -/
structure ARec where
  assistant_id : Nat
  name : String
  vector_store : Nat
  user : Nat
  created_at : Nat
deriving DecidableEq

/-- Mirror of the `Thread` document: `thread_id` (unique), optional
`vector_store` reference, `assistant_id` (a plain string field in the
source; `none` models the empty string), `title`, `user`, timestamps. -/
structure TRec where
  thread_id : Nat
  vector_store : Option Nat
  assistant_id : Option Nat
  title : String
  user : Nat
  created_at : Nat
  updated_at : Nat
deriving DecidableEq

/-- Mirror of the `Message` document: a reference to its `Thread` (by the
thread's unique id), `role`, `content`, `created_at`. -/
structure MRec where
  thread : Nat
  role : String
  content : String
  created_at : Nat
deriving DecidableEq

/-- The combined state: the remote provider's resources and the local
MongoDB mirror.  `nextId` is the supply of fresh remote identifiers,
`clock` the monotone wall clock.  Each remote vector store carries its
current remote file membership. -/
structure St where
  nextId : Nat
  clock : Nat
  remoteVS : List (Nat × List Nat)
  remoteAssistants : List Nat
  remoteThreads : List Nat
  remoteFiles : List Nat
  localFiles : List FileRec
  localVS : List VSRec
  localAssistants : List ARec
  localThreads : List TRec
  localMessages : List MRec
deriving DecidableEq

/-- Outcomes the remote provider reports for delete calls.  `false` covers
both `response.deleted == False` and a raised exception: the source
handles the two identically (log and `return False`). -/
structure Rem where
  threadDeleted : Nat → Bool
  assistantDeleted : Nat → Bool
  vsDeleted : Nat → Bool
  fileDeleted : Nat → Bool

/-- The happy-path oracle: every remote deletion succeeds. -/
def allOk : Rem :=
  ⟨fun _ => true, fun _ => true, fun _ => true, fun _ => true⟩

/-- `client.beta.vector_stores.files.list(vector_store_id=vsId)`:
`none` models the call raising (store unknown remotely), which every
caller in the source catches and skips. -/
def remoteFind (st : St) (vsId : Nat) : Option (List Nat) :=
  (st.remoteVS.find? (fun p => p.1 == vsId)).map (fun p => p.2)

/-! ### Thread and message operations (src/src/utils.py) -/

/-- `delete_thread` (utils.py lines 317-345; the copy in src/main.py lines
177-205 is identical): find the thread, delete it remotely, and only when
the provider confirms deletion delete the local messages and the local
thread record. -/
def delete_thread (rem : Rem) (st : St) (threadId : Nat) : Bool × St :=
  match st.localThreads.find? (fun t => t.thread_id == threadId) with
  | none => (false, st)
  | some _ =>
    if rem.threadDeleted threadId then
      (true,
        { st with
          remoteThreads := st.remoteThreads.filter (fun t => t != threadId),
          localMessages := st.localMessages.filter (fun m => m.thread != threadId),
          localThreads := st.localThreads.filter (fun t => t.thread_id != threadId) })
    else
      (false, st)

/-- `get_threads` (utils.py lines 347-349):
`Thread.objects(user=user).order_by('-updated_at')`. -/
def thGe (a b : TRec) : Prop := b.updated_at ≤ a.updated_at

instance : DecidableRel thGe := fun a b => Nat.decLe b.updated_at a.updated_at

instance : IsTotal TRec thGe := ⟨fun a b => Nat.le_total b.updated_at a.updated_at⟩

instance : IsTrans TRec thGe := ⟨fun _ _ _ h1 h2 => Nat.le_trans h2 h1⟩

def get_threads (st : St) (u : Nat) : List TRec :=
  List.insertionSort thGe (st.localThreads.filter (fun t => t.user == u))

/-- `save_message` (utils.py lines 351-388): look the thread up, insert the
new message with `created_at = now()`, then set the thread's `updated_at`
to a fresh `now()` and save it back. -/
def save_message (st : St) (threadId : Nat) (role content : String) :
    Option MRec × St :=
  match st.localThreads.find? (fun t => t.thread_id == threadId) with
  | none => (none, st)
  | some th =>
    let m : MRec := ⟨th.thread_id, role, content, st.clock⟩
    let upd : TRec := { th with updated_at := st.clock + 1 }
    (some m,
      { st with
        clock := st.clock + 2,
        localMessages := st.localMessages ++ [m],
        localThreads :=
          st.localThreads.map (fun t => if t.thread_id == th.thread_id then upd else t) })

/-- `get_messages` (utils.py lines 390-411):
`Message.objects(thread=thread).order_by('+created_at')`, or `[]` when the
thread is unknown. -/
def msgLe (a b : MRec) : Prop := a.created_at ≤ b.created_at

instance : DecidableRel msgLe := fun a b => Nat.decLe a.created_at b.created_at

instance : IsTotal MRec msgLe := ⟨fun a b => Nat.le_total a.created_at b.created_at⟩

instance : IsTrans MRec msgLe := ⟨fun _ _ _ h1 h2 => Nat.le_trans h1 h2⟩

def get_messages (st : St) (threadId : Nat) : List MRec :=
  match st.localThreads.find? (fun t => t.thread_id == threadId) with
  | none => []
  | some th =>
    List.insertionSort msgLe (st.localMessages.filter (fun m => m.thread == th.thread_id))

/-! ### Vector-store creation with deduplication (src/src/utils.py) -/

/-- Python's `set(a) == set(b)` on id lists. -/
def sameSet (a b : List Nat) : Bool :=
  a.all (fun x => b.contains x) && b.all (fun x => a.contains x)

/-- The per-store dedup check of `create_vector_store` (utils.py lines
133-144): list the store's current remote files (an exception — modelled
by `remoteFind = none` — is caught and the store skipped, i.e. counted as
no match) and compare against `selected`:
`set(vs_file_ids) == set(selected_file_ids) and
len(vs_file_ids) == len(selected_file_ids)`. -/
def vsMatches (st : St) (selected : List Nat) (v : VSRec) : Bool :=
  match remoteFind st v.vector_store_id with
  | none => false
  | some fids => sameSet fids selected && fids.length == selected.length

/-- The dedup scan of `create_vector_store` (utils.py lines 132-144): walk
the user's stores in order and return the identifier of the first store
whose current remote membership matches `selected`. -/
def findReuse (st : St) (selected : List Nat) (l : List VSRec) : Option Nat :=
  (l.find? (vsMatches st selected)).map (fun v => v.vector_store_id)

/-- `create_vector_store_files` (utils.py lines 169-180): attach each file
id in turn to the remote store. -/
def create_vector_store_files (st : St) (vsId : Nat) (fileIds : List Nat) : St :=
  fileIds.foldl
    (fun s fid =>
      { s with
        remoteVS := s.remoteVS.map
          (fun p => if p.1 == vsId then (p.1, p.2 ++ [fid]) else p) })
    st

/-- `create_vector_store` (utils.py lines 110-167): reuse an existing store
whose remote membership equals `selected`, else create a fresh remote
store, save the local record, and attach the selected files. -/
def create_vector_store (st : St) (name : String) (selected : List Nat) (u : Nat) :
    Option Nat × St :=
  match findReuse st selected (st.localVS.filter (fun v => v.user == u)) with
  | some vsId => (some vsId, st)
  | none =>
    let vsId := st.nextId
    let st1 : St :=
      { st with
        nextId := st.nextId + 1,
        remoteVS := st.remoteVS ++ [(vsId, [])] }
    let st2 : St :=
      { st1 with
        clock := st1.clock + 1,
        localVS := st1.localVS ++ [⟨vsId, name, u, st1.clock⟩] }
    (some vsId, create_vector_store_files st2 vsId selected)

/-! ### Assistant creation with deduplication (src/src/utils.py) -/

/-- `if not name or name.strip() == ''` for the assistant's display name. -/
def blankName (name : String) : Bool :=
  name.data.all (fun c => c.isWhitespace)

/-- `create_assistant` (utils.py lines 200-256): resolve the vector store,
reuse an existing assistant for (that store, user) unchanged, else create
the remote assistant (deriving a default name when blank) and save the
local record.  When the vector-store id resolves to no local record the
dedup query matches nothing, the remote assistant is still created, and
the local save then raises (required reference missing), modelled by a
`none` result with the remote resource already allocated. -/
def create_assistant (st : St) (name : String) (vsId : Nat) (u : Nat) :
    Option Nat × St :=
  match st.localVS.find? (fun v => v.vector_store_id == vsId) with
  | some v =>
    match st.localAssistants.find?
        (fun a => a.vector_store == v.vector_store_id && a.user == u) with
    | some a => (some a.assistant_id, st)
    | none =>
      let realName := if blankName name then "Assistant for " ++ v.name else name
      let aid := st.nextId
      let st1 : St :=
        { st with
          nextId := st.nextId + 1,
          remoteAssistants := st.remoteAssistants ++ [aid] }
      (some aid,
        { st1 with
          clock := st1.clock + 1,
          localAssistants :=
            st1.localAssistants ++ [⟨aid, realName, v.vector_store_id, u, st1.clock⟩] })
  | none =>
    (none,
      { st with
        nextId := st.nextId + 1,
        remoteAssistants := st.remoteAssistants ++ [st.nextId] })

/-! ### Cascading deletion (src/src/utils.py) -/

/-- A `for thread in threads: delete_thread(thread.thread_id)` loop whose
per-iteration results are ignored, as in `delete_assistant` and
`delete_vector_store`. -/
def delThreadFold (rem : Rem) (st : St) (tids : List Nat) : St :=
  tids.foldl (fun s tid => (delete_thread rem s tid).2) st

/-- `delete_assistant` (utils.py lines 625-664): find the assistant for
(id, user); delete every thread whose `assistant_id` string matches (the
sub-results are not inspected); delete the remote assistant, and only on
confirmed remote deletion delete the local record. -/
def delete_assistant (rem : Rem) (st : St) (assistantId : Nat) (u : Nat) : Bool × St :=
  match st.localAssistants.find?
      (fun a => a.assistant_id == assistantId && a.user == u) with
  | none => (false, st)
  | some _ =>
    let tids :=
      (st.localThreads.filter
        (fun t => t.assistant_id == some assistantId && t.user == u)).map
        (fun t => t.thread_id)
    let st1 := delThreadFold rem st tids
    if rem.assistantDeleted assistantId then
      (true,
        { st1 with
          remoteAssistants := st1.remoteAssistants.filter (fun a => a != assistantId),
          localAssistants :=
            st1.localAssistants.filter (fun a => a.assistant_id != assistantId) })
    else
      (false, st1)

/-- A `for assistant in assistants: delete_assistant(...)` loop whose
per-iteration results are ignored, as in `delete_vector_store`. -/
def delAsstFold (rem : Rem) (u : Nat) (st : St) (aids : List Nat) : St :=
  aids.foldl (fun s aid => (delete_assistant rem s aid u).2) st

/-- `delete_vector_store` (utils.py lines 579-623): find the store for
(id, user); delete every assistant bound to it (sub-results ignored); then
delete every thread still referencing it directly (sub-results ignored);
delete the remote store, and only on confirmed remote deletion delete the
local record. -/
def delete_vector_store (rem : Rem) (st : St) (vsId : Nat) (u : Nat) : Bool × St :=
  match st.localVS.find?
      (fun v => v.vector_store_id == vsId && v.user == u) with
  | none => (false, st)
  | some _ =>
    let aids :=
      (st.localAssistants.filter
        (fun a => a.vector_store == vsId && a.user == u)).map
        (fun a => a.assistant_id)
    let st1 := delAsstFold rem u st aids
    let tids :=
      (st1.localThreads.filter
        (fun t => t.vector_store == some vsId && t.user == u)).map
        (fun t => t.thread_id)
    let st2 := delThreadFold rem st1 tids
    if rem.vsDeleted vsId then
      (true,
        { st2 with
          remoteVS := st2.remoteVS.filter (fun p => p.1 != vsId),
          localVS := st2.localVS.filter (fun v => v.vector_store_id != vsId) })
    else
      (false, st2)

/-- One iteration of the second loop of `delete_file` (utils.py lines
541-558): re-list the store's current remote membership (an exception —
`remoteFind = none` — is caught and the store skipped); when the deleted
file is the store's only member delete the whole store (result ignored),
otherwise detach just that file remotely. -/
def processVS (rem : Rem) (u fid : Nat) (st : St) (vsId : Nat) : St :=
  match remoteFind st vsId with
  | none => st
  | some fids =>
    if fids == [fid] then
      (delete_vector_store rem st vsId u).2
    else
      { st with
        remoteVS := st.remoteVS.map
          (fun p => if p.1 == vsId then (p.1, p.2.filter (fun x => x != fid)) else p) }

/-- `delete_file` (utils.py lines 508-577): find the file for (id, user);
collect the user's stores whose current remote membership contains the
file; process each (delete the store when the file is its only member,
else detach); then delete the remote file, and only on confirmed remote
deletion delete the local file record. -/
def delete_file (rem : Rem) (st : St) (fid : Nat) (u : Nat) : Bool × St :=
  match st.localFiles.find? (fun f => f.file_id == fid && f.user == u) with
  | none => (false, st)
  | some _ =>
    let affected :=
      (st.localVS.filter
        (fun v => v.user == u &&
          (match remoteFind st v.vector_store_id with
           | none => false
           | some fids => fids.contains fid))).map
        (fun v => v.vector_store_id)
    let st1 := affected.foldl (processVS rem u fid) st
    if rem.fileDeleted fid then
      (true,
        { st1 with
          remoteFiles := st1.remoteFiles.filter (fun x => x != fid),
          localFiles := st1.localFiles.filter (fun f => f.file_id != fid) })
    else
      (false, st1)

/-- The assistant ids `delete_vector_store` snapshots for its cascade. -/
def vsAsstIds (st : St) (vsId u : Nat) : List Nat :=
  (st.localAssistants.filter
    (fun a => a.vector_store == vsId && a.user == u)).map
    (fun a => a.assistant_id)

/-- The thread ids `delete_vector_store` snapshots for its cascade. -/
def vsThreadIds (st : St) (vsId u : Nat) : List Nat :=
  (st.localThreads.filter
    (fun t => t.vector_store == some vsId && t.user == u)).map
    (fun t => t.thread_id)

/-- The state a happy-path `delete_vector_store` run ends in, once the
store has been found. -/
def dvsHappyState (st : St) (vsId u : Nat) : St :=
  let st1 := delAsstFold allOk u st (vsAsstIds st vsId u)
  let st2 := delThreadFold allOk st1 (vsThreadIds st1 vsId u)
  { st2 with
    remoteVS := st2.remoteVS.filter (fun p => p.1 != vsId),
    localVS := st2.localVS.filter (fun v => v.vector_store_id != vsId) }

/-- The nothing-succeeds oracle used in failure witnesses. -/
def remNone : Rem :=
  ⟨fun _ => false, fun _ => false, fun _ => false, fun _ => false⟩

/-- A state holding one thread (id 9) with one message. -/
def stC8 : St :=
  ⟨100, 50, [], [], [9], [], [], [], [],
    [⟨9, none, none, "session", 0, 1, 1⟩], [⟨9, "user", "hi", 2⟩]⟩

/-- A state holding thread 1 with messages at times 1 < 2 < 3 (and an
unrelated thread 2 with a message in between). -/
def stC9 : St :=
  ⟨100, 50, [], [], [1, 2], [], [], [], [],
    [⟨1, none, none, "a", 0, 0, 0⟩, ⟨2, none, none, "b", 0, 0, 0⟩],
    [⟨1, "user", "m1", 1⟩, ⟨2, "user", "x", 5⟩,
      ⟨1, "assistant", "m2", 2⟩, ⟨1, "user", "m3", 3⟩]⟩

/-- A state holding file 5 of user 0, attached to vector store 10. -/
def stC7 : St :=
  ⟨100, 50, [(10, [5])], [], [], [5],
    [⟨5, "notes.pdf", 0, 1⟩], [⟨10, "store", 0, 2⟩], [], [], []⟩

/-- A state holding vector store 10 of user 0 and assistant 7 bound to it. -/
def stC5 : St :=
  ⟨100, 50, [(10, [5])], [7], [], [], [], [⟨10, "s", 0, 2⟩],
    [⟨7, "Buddy", 10, 0, 3⟩], [], []⟩

/-- An oracle on which the provider refuses to delete thread 20 only. -/
def remBad : Rem :=
  ⟨fun t => t != 20, fun _ => true, fun _ => true, fun _ => true⟩

def stC4 : St :=
  ⟨100, 50, [(10, [5])], [], [20, 21], [], [], [⟨10, "s", 0, 1⟩], [],
    [⟨20, some 10, none, "t20", 0, 1, 1⟩, ⟨21, some 10, none, "t21", 0, 2, 2⟩],
    []⟩

/-- An oracle on which the provider refuses to delete assistant 7 only. -/
def remBadA : Rem :=
  ⟨fun _ => true, fun a => a != 7, fun _ => true, fun _ => true⟩

def stC3x : St :=
  ⟨100, 50, [(10, [5])], [7], [], [], [], [⟨10, "s", 0, 1⟩],
    [⟨7, "A", 10, 0, 2⟩], [], []⟩

/-- A state where user 0 owns vector store 10, assistant 7 bound to it,
one thread referencing the store directly, one through the assistant, and
a message. -/
def stC3 : St :=
  ⟨100, 50, [(10, [5])], [7], [30, 31], [], [], [⟨10, "s", 0, 1⟩],
    [⟨7, "A", 10, 0, 2⟩],
    [⟨30, some 10, none, "t30", 0, 3, 3⟩, ⟨31, some 10, some 7, "t31", 0, 4, 4⟩],
    [⟨30, "user", "m", 5⟩]⟩

/-- One remote attach call, as issued by `create_vector_store_files`. -/
def attachOne (s : St) (k f : Nat) : St :=
  { s with remoteVS :=
      s.remoteVS.map (fun p => if p.1 == k then (p.1, p.2 ++ [f]) else p) }

/-- The state a deduplication miss of `create_vector_store` produces: a
fresh remote store, the new local record, and the selected files attached. -/
def cvsNewState (st : St) (nm : String) (S : List Nat) (u : Nat) : St :=
  create_vector_store_files
    { st with
      nextId := st.nextId + 1,
      clock := st.clock + 1,
      remoteVS := st.remoteVS ++ [(st.nextId, [])],
      localVS := st.localVS ++ [⟨st.nextId, nm, u, st.clock⟩] }
    st.nextId S

/-- A state with two files of user 0 and no vector store yet. -/
def stC2 : St :=
  ⟨1, 0, [], [], [], [3, 4], [⟨3, "a.pdf", 0, 0⟩, ⟨4, "b.pdf", 0, 0⟩],
    [], [], [], []⟩

/-- One remote detach call, as issued by the multi-file branch of
`delete_file`. -/
def detachOne (s : St) (vsId fid : Nat) : St :=
  { s with remoteVS :=
      s.remoteVS.map fun p =>
        if p.1 == vsId then (p.1, p.2.filter (fun x => x != fid)) else p }

/-- The vector-store ids `delete_file` collects in its first loop: stores
of the user whose current remote membership contains the file. -/
def affectedIds (st : St) (fid u : Nat) : List Nat :=
  (st.localVS.filter
    (fun v => v.user == u &&
      (match remoteFind st v.vector_store_id with
       | none => false
       | some fids => fids.contains fid))).map
    (fun v => v.vector_store_id)

/-- A state where user 0 owns file 5; store 10 holds exactly file 5 (with
assistant 7 and thread 30 depending on it) and store 11 holds files 5 and
6. -/
def stC6 : St :=
  ⟨100, 50, [(10, [5]), (11, [5, 6])], [7], [30], [5, 6],
    [⟨5, "n.pdf", 0, 1⟩, ⟨6, "m.pdf", 0, 1⟩],
    [⟨10, "solo", 0, 1⟩, ⟨11, "multi", 0, 2⟩],
    [⟨7, "A", 10, 0, 2⟩],
    [⟨30, some 10, some 7, "t", 0, 3, 3⟩],
    []⟩

/-- A state with two threads of user 0 (ids 1 and 2) and older timestamps
than the clock. -/
def stC10 : St :=
  ⟨100, 40, [], [], [1, 2], [], [], [], [],
    [⟨1, none, none, "a", 0, 5, 9⟩, ⟨2, none, none, "b", 0, 6, 30⟩],
    [⟨1, "user", "old", 7⟩]⟩

/-! ### Lemmas and claim theorems -/

/-! ### Helper lemmas -/

lemma foldl_files {f : St → Nat → St}
    (h : ∀ s i, (f s i).localFiles = s.localFiles) :
    ∀ (l : List Nat) (st : St), (l.foldl f st).localFiles = st.localFiles := by
  intro l
  induction l with
  | nil => intro st; rfl
  | cons a rest ih => intro st; rw [List.foldl_cons, ih, h]

lemma delete_thread_files (rem : Rem) (st : St) (threadId : Nat) :
    (delete_thread rem st threadId).2.localFiles = st.localFiles := by
  unfold delete_thread
  cases hf : st.localThreads.find? (fun t => t.thread_id == threadId) with
  | none => rfl
  | some th => cases hr : rem.threadDeleted threadId <;> simp [hr]

lemma delThreadFold_files (rem : Rem) (st : St) (tids : List Nat) :
    (delThreadFold rem st tids).localFiles = st.localFiles :=
  foldl_files (fun s i => delete_thread_files rem s i) tids st

lemma delete_assistant_files (rem : Rem) (st : St) (aid u : Nat) :
    (delete_assistant rem st aid u).2.localFiles = st.localFiles := by
  unfold delete_assistant
  cases hf : st.localAssistants.find?
      (fun a => a.assistant_id == aid && a.user == u) with
  | none => rfl
  | some a =>
    cases hr : rem.assistantDeleted aid <;> simp [hr, delThreadFold_files]

lemma delAsstFold_files (rem : Rem) (u : Nat) (st : St) (aids : List Nat) :
    (delAsstFold rem u st aids).localFiles = st.localFiles :=
  foldl_files (fun s i => delete_assistant_files rem s i u) aids st

lemma delete_vector_store_files (rem : Rem) (st : St) (vsId u : Nat) :
    (delete_vector_store rem st vsId u).2.localFiles = st.localFiles := by
  unfold delete_vector_store
  cases hf : st.localVS.find?
      (fun v => v.vector_store_id == vsId && v.user == u) with
  | none => rfl
  | some v =>
    cases hr : rem.vsDeleted vsId <;>
      simp [hr, delThreadFold_files, delAsstFold_files]

lemma processVS_files (rem : Rem) (u fid : Nat) (st : St) (vsId : Nat) :
    (processVS rem u fid st vsId).localFiles = st.localFiles := by
  unfold processVS
  cases hm : remoteFind st vsId with
  | none => rfl
  | some fids =>
    cases hq : (fids == [fid]) <;> simp [hq, delete_vector_store_files]

/-! Frame lemmas: state components a deletion never touches. -/

lemma foldl_pres {β : Type} (g : St → β) {f : St → Nat → St}
    (h : ∀ s i, g (f s i) = g s) :
    ∀ (l : List Nat) (st : St), g (l.foldl f st) = g st := by
  intro l
  induction l with
  | nil => intro st; rfl
  | cons a rest ih => intro st; rw [List.foldl_cons, ih, h]

lemma delete_thread_assts (rem : Rem) (st : St) (tid : Nat) :
    (delete_thread rem st tid).2.localAssistants = st.localAssistants := by
  unfold delete_thread
  cases hf : st.localThreads.find? (fun t => t.thread_id == tid) with
  | none => rfl
  | some th => cases hr : rem.threadDeleted tid <;> simp [hr]

lemma delete_thread_localVS (rem : Rem) (st : St) (tid : Nat) :
    (delete_thread rem st tid).2.localVS = st.localVS := by
  unfold delete_thread
  cases hf : st.localThreads.find? (fun t => t.thread_id == tid) with
  | none => rfl
  | some th => cases hr : rem.threadDeleted tid <;> simp [hr]

lemma delete_thread_remoteVS (rem : Rem) (st : St) (tid : Nat) :
    (delete_thread rem st tid).2.remoteVS = st.remoteVS := by
  unfold delete_thread
  cases hf : st.localThreads.find? (fun t => t.thread_id == tid) with
  | none => rfl
  | some th => cases hr : rem.threadDeleted tid <;> simp [hr]

lemma delThreadFold_assts (rem : Rem) (st : St) (tids : List Nat) :
    (delThreadFold rem st tids).localAssistants = st.localAssistants :=
  foldl_pres (fun s => s.localAssistants)
    (fun s i => delete_thread_assts rem s i) tids st

lemma delThreadFold_localVS (rem : Rem) (st : St) (tids : List Nat) :
    (delThreadFold rem st tids).localVS = st.localVS :=
  foldl_pres (fun s => s.localVS)
    (fun s i => delete_thread_localVS rem s i) tids st

lemma delThreadFold_remoteVS (rem : Rem) (st : St) (tids : List Nat) :
    (delThreadFold rem st tids).remoteVS = st.remoteVS :=
  foldl_pres (fun s => s.remoteVS)
    (fun s i => delete_thread_remoteVS rem s i) tids st

lemma delete_assistant_localVS (rem : Rem) (st : St) (aid u : Nat) :
    (delete_assistant rem st aid u).2.localVS = st.localVS := by
  unfold delete_assistant
  cases hf : st.localAssistants.find?
      (fun a => a.assistant_id == aid && a.user == u) with
  | none => rfl
  | some a =>
    cases hr : rem.assistantDeleted aid <;> simp [hr, delThreadFold_localVS]

lemma delete_assistant_remoteVS (rem : Rem) (st : St) (aid u : Nat) :
    (delete_assistant rem st aid u).2.remoteVS = st.remoteVS := by
  unfold delete_assistant
  cases hf : st.localAssistants.find?
      (fun a => a.assistant_id == aid && a.user == u) with
  | none => rfl
  | some a =>
    cases hr : rem.assistantDeleted aid <;> simp [hr, delThreadFold_remoteVS]

lemma delAsstFold_localVS (rem : Rem) (u : Nat) (st : St) (aids : List Nat) :
    (delAsstFold rem u st aids).localVS = st.localVS :=
  foldl_pres (fun s => s.localVS)
    (fun s i => delete_assistant_localVS rem s i u) aids st

lemma delAsstFold_remoteVS (rem : Rem) (u : Nat) (st : St) (aids : List Nat) :
    (delAsstFold rem u st aids).remoteVS = st.remoteVS :=
  foldl_pres (fun s => s.remoteVS)
    (fun s i => delete_assistant_remoteVS rem s i u) aids st

/-! Shrinking and removal lemmas for the happy-path cascades. -/

lemma delete_thread_allOk_threads (st : St) (tid : Nat) :
    (delete_thread allOk st tid).2.localThreads =
      st.localThreads.filter (fun t => t.thread_id != tid) := by
  unfold delete_thread
  cases hf : st.localThreads.find? (fun t => t.thread_id == tid) with
  | none =>
    have hall := List.find?_eq_none.mp hf
    simp only []
    symm
    apply List.filter_eq_self.mpr
    intro a ha
    have := hall a ha
    simpa using this
  | some th => simp [allOk]

lemma delete_thread_threads_sub (rem : Rem) (st : St) (tid : Nat) (t : TRec) :
    t ∈ (delete_thread rem st tid).2.localThreads → t ∈ st.localThreads := by
  unfold delete_thread
  cases hf : st.localThreads.find? (fun t => t.thread_id == tid) with
  | none => exact fun h => h
  | some th =>
    cases hr : rem.threadDeleted tid <;> simp_all [List.mem_filter]

lemma delThreadFold_allOk_mem (l : List Nat) (st : St) (t : TRec) :
    t ∈ (delThreadFold allOk st l).localThreads →
      t ∈ st.localThreads ∧ t.thread_id ∉ l := by
  induction l generalizing st with
  | nil => exact fun h => ⟨h, by simp⟩
  | cons a rest ih =>
    intro h
    rw [delThreadFold, List.foldl_cons] at h
    obtain ⟨h1, h2⟩ := ih _ h
    rw [delete_thread_allOk_threads] at h1
    obtain ⟨h3, h4⟩ := List.mem_filter.mp h1
    refine ⟨h3, ?_⟩
    simp only [List.mem_cons, not_or]
    exact ⟨by simpa using h4, h2⟩

lemma delThreadFold_threads_sub (rem : Rem) (l : List Nat) (st : St) (t : TRec) :
    t ∈ (delThreadFold rem st l).localThreads → t ∈ st.localThreads := by
  induction l generalizing st with
  | nil => exact fun h => h
  | cons a rest ih =>
    intro h
    rw [delThreadFold, List.foldl_cons] at h
    exact delete_thread_threads_sub rem st a t (ih _ h)

lemma delete_assistant_allOk_assts (st : St) (aid u : Nat) (x : ARec) :
    x ∈ (delete_assistant allOk st aid u).2.localAssistants →
      x ∈ st.localAssistants ∧ (x.user = u → x.assistant_id ≠ aid) := by
  unfold delete_assistant
  cases hf : st.localAssistants.find?
      (fun a => a.assistant_id == aid && a.user == u) with
  | none =>
    intro hx
    refine ⟨hx, fun hu haid => ?_⟩
    have := List.find?_eq_none.mp hf x hx
    simp [haid, hu] at this
  | some a =>
    intro hx
    simp only [allOk, if_true] at hx
    rw [delThreadFold_assts] at hx
    obtain ⟨h1, h2⟩ := List.mem_filter.mp hx
    exact ⟨h1, fun _ => by simpa using h2⟩

lemma delete_assistant_threads_sub (rem : Rem) (st : St) (aid u : Nat) (t : TRec) :
    t ∈ (delete_assistant rem st aid u).2.localThreads → t ∈ st.localThreads := by
  unfold delete_assistant
  cases hf : st.localAssistants.find?
      (fun a => a.assistant_id == aid && a.user == u) with
  | none => exact fun h => h
  | some a =>
    cases hr : rem.assistantDeleted aid <;>
      · intro h
        simp only [hr, if_true, if_false] at h
        exact delThreadFold_threads_sub rem _ st t (by simpa using h)

lemma delAsstFold_allOk_assts (u : Nat) (l : List Nat) (st : St) (x : ARec) :
    x ∈ (delAsstFold allOk u st l).localAssistants →
      x ∈ st.localAssistants ∧ (x.user = u → x.assistant_id ∉ l) := by
  induction l generalizing st with
  | nil => exact fun h => ⟨h, fun _ => by simp⟩
  | cons a rest ih =>
    intro h
    rw [delAsstFold, List.foldl_cons] at h
    obtain ⟨h1, h2⟩ := ih _ h
    obtain ⟨h3, h4⟩ := delete_assistant_allOk_assts st a u x h1
    refine ⟨h3, fun hu => ?_⟩
    simp only [List.mem_cons, not_or]
    exact ⟨h4 hu, h2 hu⟩

lemma delAsstFold_threads_sub (rem : Rem) (u : Nat) (l : List Nat) (st : St)
    (t : TRec) :
    t ∈ (delAsstFold rem u st l).localThreads → t ∈ st.localThreads := by
  induction l generalizing st with
  | nil => exact fun h => h
  | cons a rest ih =>
    intro h
    rw [delAsstFold, List.foldl_cons] at h
    exact delete_assistant_threads_sub rem st a u t (ih _ h)

lemma dvs_notfound (rem : Rem) (st : St) (vsId u : Nat)
    (hf : st.localVS.find?
      (fun v => v.vector_store_id == vsId && v.user == u) = none) :
    delete_vector_store rem st vsId u = (false, st) := by
  unfold delete_vector_store
  rw [hf]

lemma dvs_allOk_found (st : St) (vsId u : Nat) (v0 : VSRec)
    (hf : st.localVS.find?
      (fun v => v.vector_store_id == vsId && v.user == u) = some v0) :
    delete_vector_store allOk st vsId u = (true, dvsHappyState st vsId u) := by
  unfold delete_vector_store dvsHappyState vsAsstIds vsThreadIds
  rw [hf]
  rfl

lemma dvsHappyState_localVS (st : St) (vsId u : Nat) :
    (dvsHappyState st vsId u).localVS =
      st.localVS.filter (fun v => v.vector_store_id != vsId) := by
  unfold dvsHappyState
  simp only [delThreadFold_localVS, delAsstFold_localVS]

lemma dvsHappyState_remoteVS (st : St) (vsId u : Nat) :
    (dvsHappyState st vsId u).remoteVS =
      st.remoteVS.filter (fun p => p.1 != vsId) := by
  unfold dvsHappyState
  simp only [delThreadFold_remoteVS, delAsstFold_remoteVS]

lemma dvsHappyState_files (st : St) (vsId u : Nat) :
    (dvsHappyState st vsId u).localFiles = st.localFiles := by
  unfold dvsHappyState
  simp only [delThreadFold_files, delAsstFold_files]

lemma dvsHappyState_assts (st : St) (vsId u : Nat) :
    (dvsHappyState st vsId u).localAssistants =
      (delAsstFold allOk u st (vsAsstIds st vsId u)).localAssistants := by
  unfold dvsHappyState
  simp only [delThreadFold_assts]

lemma dvsHappyState_threads (st : St) (vsId u : Nat) :
    (dvsHappyState st vsId u).localThreads =
      (delThreadFold allOk (delAsstFold allOk u st (vsAsstIds st vsId u))
        (vsThreadIds (delAsstFold allOk u st (vsAsstIds st vsId u)) vsId u)).localThreads :=
  rfl

/-- Happy-path postcondition of `delete_vector_store`: when every remote
deletion succeeds and every assistant/thread referencing the store belongs
to the requesting user, a successful run leaves no local vector-store
record, no assistant and no thread referencing the store. -/
lemma dvs_allOk_post (st : St) (vsId u : Nat)
    (hA : ∀ a ∈ st.localAssistants, a.vector_store = vsId → a.user = u)
    (hT : ∀ t ∈ st.localThreads, t.vector_store = some vsId → t.user = u)
    (hs : (delete_vector_store allOk st vsId u).1 = true) :
    (delete_vector_store allOk st vsId u).2.localVS.filter
        (fun w => w.vector_store_id == vsId) = [] ∧
      (delete_vector_store allOk st vsId u).2.localAssistants.filter
        (fun a => a.vector_store == vsId) = [] ∧
      (delete_vector_store allOk st vsId u).2.localThreads.filter
        (fun t => t.vector_store == some vsId) = [] := by
  cases hf : st.localVS.find?
      (fun v => v.vector_store_id == vsId && v.user == u) with
  | none => rw [dvs_notfound allOk st vsId u hf] at hs; simp at hs
  | some v0 =>
    rw [dvs_allOk_found st vsId u v0 hf]
    refine ⟨?_, ?_, ?_⟩
    · apply List.filter_eq_nil_iff.mpr
      intro w hw
      rw [dvsHappyState_localVS] at hw
      obtain ⟨-, h2⟩ := List.mem_filter.mp hw
      simpa using h2
    · apply List.filter_eq_nil_iff.mpr
      intro a ha heq
      rw [dvsHappyState_assts] at ha
      have hvs : a.vector_store = vsId := by simpa using heq
      obtain ⟨h1, h2⟩ := delAsstFold_allOk_assts u _ st a ha
      have hu : a.user = u := hA a h1 hvs
      refine h2 hu ?_
      unfold vsAsstIds
      apply List.mem_map.mpr
      exact ⟨a, List.mem_filter.mpr ⟨h1, by simp [hvs, hu]⟩, rfl⟩
    · apply List.filter_eq_nil_iff.mpr
      intro t ht hteq
      rw [dvsHappyState_threads] at ht
      have hvs : t.vector_store = some vsId := by simpa using hteq
      obtain ⟨h1, h2⟩ := delThreadFold_allOk_mem _ _ t ht
      have hst : t ∈ st.localThreads := delAsstFold_threads_sub allOk u _ st t h1
      have hu : t.user = u := hT t hst hvs
      refine h2 ?_
      unfold vsThreadIds
      apply List.mem_map.mpr
      exact ⟨t, List.mem_filter.mpr ⟨h1, by simp [hvs, hu]⟩, rfl⟩

/-! ### Claim theorems -/

/-- C1, counterexample: the spec's expected output
`"Paris is the capital <sup>[1]</sup> and has a population <sup>[2]</sup>"`
is not what the annotation pass stores, because the replacement string
`f' <sup>[{index}]</sup>'` starts with a space of its own. -/
theorem footnote_spec_example_mismatch :
    citeFootnotes "Paris is the capital [cite:A] and has a population [cite:B]"
        ["[cite:A]", "[cite:B]"] ≠
      "Paris is the capital <sup>[1]</sup> and has a population <sup>[2]</sup>" := by
  decide

/-- C1, amended: the annotation pass replaces each annotation's matched
source span, in order of appearance, by a sequential footnote marker with
a leading space, so for the spec's example the stored text is
`"Paris is the capital  <sup>[1]</sup> and has a population  <sup>[2]</sup>"`
(two spaces before each marker). -/
theorem footnote_example_actual :
    citeFootnotes "Paris is the capital [cite:A] and has a population [cite:B]"
        ["[cite:A]", "[cite:B]"] =
      "Paris is the capital  <sup>[1]</sup> and has a population  <sup>[2]</sup>" := by
  decide

/-- C8: when the remote thread deletion reports failure (provider-level
`deleted == False`, or the remote call raising — both modelled by the
oracle answering `false`), `delete_thread` returns failure and the whole
state, in particular the local thread record and all of its messages, is
unchanged. -/
theorem delete_thread_remote_failure (rem : Rem) (st : St) (threadId : Nat)
    (h : rem.threadDeleted threadId = false) :
    delete_thread rem st threadId = (false, st) := by
  unfold delete_thread
  cases hf : st.localThreads.find? (fun t => t.thread_id == threadId) with
  | none => rfl
  | some th => simp [h]

theorem delete_thread_remote_failure_witness :
    delete_thread remNone stC8 9 = (false, stC8) :=
  delete_thread_remote_failure remNone stC8 9 rfl

/-- C9: when the messages stored for a thread have strictly increasing
creation times (as successive `save_message` calls produce), `get_messages`
returns exactly those messages in that order. -/
theorem get_messages_time_ordered (st : St) (threadId : Nat) (th : TRec)
    (hf : st.localThreads.find? (fun t => t.thread_id == threadId) = some th)
    (hs : (st.localMessages.filter (fun m => m.thread == th.thread_id)).Pairwise
      (fun a b => a.created_at < b.created_at)) :
    get_messages st threadId =
      st.localMessages.filter (fun m => m.thread == th.thread_id) := by
  unfold get_messages
  rw [hf]
  exact List.Sorted.insertionSort_eq (hs.imp (fun h => Nat.le_of_lt h))

theorem get_messages_time_ordered_witness :
    get_messages stC9 1 =
      [⟨1, "user", "m1", 1⟩, ⟨1, "assistant", "m2", 2⟩, ⟨1, "user", "m3", 3⟩] :=
  (get_messages_time_ordered stC9 1 ⟨1, none, none, "a", 0, 0, 0⟩ (by decide)
      (by decide)).trans (by decide)

/-- C7: when the remote provider reports the file was not deleted (or the
delete call raises), `delete_file` returns failure and the local `File`
records — in particular the record of the file being deleted — are exactly
as before; the local record is removed only after remote deletion is
confirmed. -/
theorem delete_file_remote_failure (rem : Rem) (st : St) (fid u : Nat)
    (h : rem.fileDeleted fid = false) :
    (delete_file rem st fid u).1 = false ∧
      (delete_file rem st fid u).2.localFiles = st.localFiles := by
  unfold delete_file
  cases hf : st.localFiles.find? (fun f => f.file_id == fid && f.user == u) with
  | none => exact ⟨rfl, rfl⟩
  | some f =>
    have h1 := foldl_files (fun s i => processVS_files rem u fid s i)
    simp [h, h1]

theorem delete_file_remote_failure_witness :
    (delete_file remNone stC7 5 0).1 = false ∧
      (delete_file remNone stC7 5 0).2.localFiles = stC7.localFiles :=
  delete_file_remote_failure remNone stC7 5 0 rfl

/-- C5: `create_assistant` deduplicates on (user, vector store).  First,
when an assistant for (the store resolved from `vsId`, `u`) already
exists, the call returns its identifier and leaves the state — remote
resources, local records, the stored name — entirely unchanged.  Second,
when none exists yet, a repeat call after the creating call returns the
identical (identifier, state) pair, so no duplicate remote assistant
appears. -/
theorem create_assistant_dedup (st : St) (name name2 : String) (vsId u : Nat)
    (v : VSRec)
    (hv : st.localVS.find? (fun w => w.vector_store_id == vsId) = some v) :
    (∀ a, st.localAssistants.find?
        (fun x => x.vector_store == v.vector_store_id && x.user == u) = some a →
      create_assistant st name vsId u = (some a.assistant_id, st)) ∧
    (st.localAssistants.find?
        (fun x => x.vector_store == v.vector_store_id && x.user == u) = none →
      create_assistant (create_assistant st name vsId u).2 name2 vsId u =
        create_assistant st name vsId u) := by
  constructor
  · intro a ha
    simp [create_assistant, hv, ha]
  · intro hnone
    simp [create_assistant, hv, hnone, List.find?_append]

theorem create_assistant_dedup_witness :
    create_assistant stC5 "another name" 10 0 = (some 7, stC5) :=
  (create_assistant_dedup stC5 "another name" "x" 10 0 ⟨10, "s", 0, 2⟩
      (by decide)).1 ⟨7, "Buddy", 10, 0, 3⟩ (by decide)

/-- C4, at the failing input `stC4`: user 0 owns vector store 10 and two
threads 20 and 21 referencing it; the provider refuses to delete thread
20.  The cascade does continue past the failed sub-step (thread 21 is
removed), but `delete_vector_store` ignores the sub-step results and still
reports overall success while thread 20's record remains — contradicting
"report success only if every sub-step succeeded". -/
theorem delete_vector_store_ignores_failed_substep :
    (delete_thread remBad stC4 20).1 = false ∧
      (delete_vector_store remBad stC4 10 0).1 = true ∧
      (delete_vector_store remBad stC4 10 0).2.localThreads.map
          (fun t => t.thread_id) = [20] := by
  decide

/-- C3, counterexample: in `stC3x` user 0 owns vector store 10 with
assistant 7 bound to it, and the provider refuses to delete assistant 7.
`delete_vector_store` still returns success, yet the local mirror retains
assistant 7 referencing the store — so "after Delete VectorStore returns
success no Assistant references vs" is false as stated. -/
theorem delete_vector_store_success_with_dangling_assistant :
    (delete_vector_store remBadA stC3x 10 0).1 = true ∧
      (delete_vector_store remBadA stC3x 10 0).2.localAssistants =
        [⟨7, "A", 10, 0, 2⟩] := by
  decide

/-- C3, amended: provided every remote sub-deletion reports success (the
happy-path oracle) and every assistant/thread referencing the store
belongs to the requesting user, after `delete_vector_store(vs, user)`
returns success the local mirror contains no assistant referencing vs, no
thread referencing vs, and no local record for vs itself. -/
theorem delete_vector_store_cascade_complete (st : St) (vsId u : Nat)
    (hA : ∀ a ∈ st.localAssistants, a.vector_store = vsId → a.user = u)
    (hT : ∀ t ∈ st.localThreads, t.vector_store = some vsId → t.user = u)
    (hs : (delete_vector_store allOk st vsId u).1 = true) :
    (delete_vector_store allOk st vsId u).2.localVS.filter
        (fun w => w.vector_store_id == vsId) = [] ∧
      (delete_vector_store allOk st vsId u).2.localAssistants.filter
        (fun a => a.vector_store == vsId) = [] ∧
      (delete_vector_store allOk st vsId u).2.localThreads.filter
        (fun t => t.vector_store == some vsId) = [] :=
  dvs_allOk_post st vsId u hA hT hs

/-! ### Lemmas for vector-store creation dedup (C2) -/

lemma find?_fst_map_ne (l : List (Nat × List Nat))
    (h : Nat × List Nat → Nat × List Nat) (k x : Nat)
    (hfst : ∀ p, (h p).1 = p.1) (hid : ∀ p, p.1 ≠ k → h p = p) (hx : x ≠ k) :
    (l.map h).find? (fun p => p.1 == x) = l.find? (fun p => p.1 == x) := by
  induction l with
  | nil => rfl
  | cons a rest ih =>
    by_cases hax : a.1 = x
    · have hone : h a = a := hid a (by rw [hax]; exact hx)
      simp [List.find?_cons, hone, hax]
    · simp [List.find?_cons, hfst, hax, ih]

lemma find?_fst_map_self (l : List (Nat × List Nat))
    (h : Nat × List Nat → Nat × List Nat) (k : Nat)
    (hfst : ∀ p, (h p).1 = p.1) :
    (l.map h).find? (fun p => p.1 == k) =
      (l.find? (fun p => p.1 == k)).map h := by
  induction l with
  | nil => rfl
  | cons a rest ih =>
    by_cases hak : a.1 = k
    · simp [List.find?_cons, hfst, hak]
    · simp [List.find?_cons, hfst, hak, ih]

lemma cvsf_cons (s : St) (k f : Nat) (rest : List Nat) :
    create_vector_store_files s k (f :: rest) =
      create_vector_store_files (attachOne s k f) k rest := by
  rw [create_vector_store_files, create_vector_store_files, List.foldl_cons]
  rfl

lemma attachOne_find_ne (s : St) (k f x : Nat) (hx : x ≠ k) :
    remoteFind (attachOne s k f) x = remoteFind s x := by
  have hrv : (attachOne s k f).remoteVS =
      s.remoteVS.map (fun p => if p.1 == k then (p.1, p.2 ++ [f]) else p) := rfl
  unfold remoteFind
  rw [hrv, find?_fst_map_ne s.remoteVS _ k x
    (fun p => by split <;> rfl)
    (fun p hp => by simp [hp]) hx]

lemma attachOne_find_self (s : St) (k f : Nat) (m : List Nat)
    (hm : remoteFind s k = some m) :
    remoteFind (attachOne s k f) k = some (m ++ [f]) := by
  have hrv : (attachOne s k f).remoteVS =
      s.remoteVS.map (fun p => if p.1 == k then (p.1, p.2 ++ [f]) else p) := rfl
  unfold remoteFind at hm ⊢
  rw [hrv, find?_fst_map_self s.remoteVS _ k (fun p => by split <;> rfl)]
  obtain ⟨p, hp, hp2⟩ := Option.map_eq_some'.mp hm
  have hpk : p.1 = k := by simpa using List.find?_some hp
  rw [hp]
  simp [hpk, hp2]

lemma cvsf_find_ne (fids : List Nat) (s : St) (k x : Nat) (hx : x ≠ k) :
    remoteFind (create_vector_store_files s k fids) x = remoteFind s x := by
  induction fids generalizing s with
  | nil => rfl
  | cons f rest ih =>
    rw [cvsf_cons, ih, attachOne_find_ne s k f x hx]

lemma cvsf_find_self (fids : List Nat) (s : St) (k : Nat) (m : List Nat)
    (hm : remoteFind s k = some m) :
    remoteFind (create_vector_store_files s k fids) k = some (m ++ fids) := by
  induction fids generalizing s m with
  | nil => simpa using hm
  | cons f rest ih =>
    rw [cvsf_cons]
    rw [ih _ (m ++ [f]) (attachOne_find_self s k f m hm)]
    simp

lemma cvsf_localVS (s : St) (k : Nat) (fids : List Nat) :
    (create_vector_store_files s k fids).localVS = s.localVS := by
  induction fids generalizing s with
  | nil => rfl
  | cons f rest ih => rw [cvsf_cons]; exact ih (attachOne s k f)

lemma vsMatches_congr (stA stB : St) (S : List Nat) (v : VSRec)
    (h : remoteFind stA v.vector_store_id = remoteFind stB v.vector_store_id) :
    vsMatches stA S v = vsMatches stB S v := by
  unfold vsMatches
  rw [h]

lemma sameSet_refl (S : List Nat) : sameSet S S = true := by
  unfold sameSet
  simp [List.all_eq_true]

lemma cvs_create (st : St) (nm : String) (S : List Nat) (u : Nat)
    (hnone : findReuse st S (st.localVS.filter (fun v => v.user == u)) = none) :
    create_vector_store st nm S u = (some st.nextId, cvsNewState st nm S u) := by
  unfold create_vector_store cvsNewState
  rw [hnone]

lemma cvs_reuse (st : St) (nm : String) (S : List Nat) (u vid : Nat)
    (h : findReuse st S (st.localVS.filter (fun v => v.user == u)) = some vid) :
    create_vector_store st nm S u = (some vid, st) := by
  unfold create_vector_store
  rw [h]

/-- C2: `create_vector_store` is dedup-idempotent.  Starting from a state
where no store of the user matches the selected file-id set `S` (and the
fresh-id supply is indeed fresh), a second call with the same user and the
same `S` returns exactly the first call's result — the same identifier and
the unchanged state, so no new remote resource and no new local record —
and exactly one store of the user matching `S` exists afterwards. -/
theorem create_vector_store_dedup_idempotent (st : St) (nm nm2 : String)
    (S : List Nat) (u : Nat)
    (hnone : findReuse st S (st.localVS.filter (fun v => v.user == u)) = none)
    (hfreshR : ∀ p ∈ st.remoteVS, p.1 ≠ st.nextId)
    (hfreshL : ∀ v ∈ st.localVS, v.vector_store_id ≠ st.nextId) :
    create_vector_store (create_vector_store st nm S u).2 nm2 S u =
        create_vector_store st nm S u ∧
      (((create_vector_store st nm S u).2.localVS.filter
          (fun v => v.user == u)).filter
          (vsMatches (create_vector_store st nm S u).2 S)).length = 1 := by
  rw [cvs_create st nm S u hnone]
  have hNfindNew : remoteFind (cvsNewState st nm S u) st.nextId = some S := by
    have hpre : remoteFind
        { st with
          nextId := st.nextId + 1,
          clock := st.clock + 1,
          remoteVS := st.remoteVS ++ [(st.nextId, [])],
          localVS := st.localVS ++ [⟨st.nextId, nm, u, st.clock⟩] }
        st.nextId = some ([] : List Nat) := by
      unfold remoteFind
      rw [show ({ st with
          nextId := st.nextId + 1,
          clock := st.clock + 1,
          remoteVS := st.remoteVS ++ [(st.nextId, [])],
          localVS := st.localVS ++ [⟨st.nextId, nm, u, st.clock⟩] } : St).remoteVS =
          st.remoteVS ++ [(st.nextId, [])] from rfl]
      rw [List.find?_append,
        List.find?_eq_none.mpr (fun p hp => by simpa using hfreshR p hp),
        Option.none_or]
      simp
    have := cvsf_find_self S _ st.nextId [] hpre
    unfold cvsNewState
    simpa using this
  have hNfindOld : ∀ x, x ≠ st.nextId →
      remoteFind (cvsNewState st nm S u) x = remoteFind st x := by
    intro x hx
    unfold cvsNewState
    rw [cvsf_find_ne S _ st.nextId x hx]
    unfold remoteFind
    rw [show ({ st with
        nextId := st.nextId + 1,
        clock := st.clock + 1,
        remoteVS := st.remoteVS ++ [(st.nextId, [])],
        localVS := st.localVS ++ [⟨st.nextId, nm, u, st.clock⟩] } : St).remoteVS =
        st.remoteVS ++ [(st.nextId, [])] from rfl]
    rw [List.find?_append]
    have h1 : [(st.nextId, ([] : List Nat))].find? (fun p => p.1 == x) = none := by
      simp [Ne.symm hx]
    rw [h1, Option.or_none]
  have hNloc : (cvsNewState st nm S u).localVS =
      st.localVS ++ [⟨st.nextId, nm, u, st.clock⟩] := by
    unfold cvsNewState
    rw [cvsf_localVS]
  have hfilterN : (cvsNewState st nm S u).localVS.filter (fun v => v.user == u) =
      st.localVS.filter (fun v => v.user == u) ++ [⟨st.nextId, nm, u, st.clock⟩] := by
    rw [hNloc, List.filter_append]
    simp
  have holdFalse : ∀ v ∈ st.localVS.filter (fun v => v.user == u),
      vsMatches (cvsNewState st nm S u) S v = false := by
    intro v hv
    have hvS : v ∈ st.localVS := (List.mem_filter.mp hv).1
    rw [vsMatches_congr _ st S v (hNfindOld v.vector_store_id (hfreshL v hvS))]
    have hfind : (st.localVS.filter (fun v => v.user == u)).find?
        (vsMatches st S) = none := by
      apply Option.map_eq_none'.mp
      exact hnone
    have := List.find?_eq_none.mp hfind v hv
    simpa using this
  have hnewMatch :
      vsMatches (cvsNewState st nm S u) S ⟨st.nextId, nm, u, st.clock⟩ = true := by
    unfold vsMatches
    rw [show (⟨st.nextId, nm, u, st.clock⟩ : VSRec).vector_store_id = st.nextId
      from rfl]
    rw [hNfindNew]
    simp [sameSet_refl]
  have hreuse : findReuse (cvsNewState st nm S u) S
      ((cvsNewState st nm S u).localVS.filter (fun v => v.user == u)) =
      some st.nextId := by
    unfold findReuse
    rw [hfilterN, List.find?_append,
      List.find?_eq_none.mpr (fun v hv => by simp [holdFalse v hv]),
      Option.none_or]
    simp [hnewMatch]
  constructor
  · exact cvs_reuse (cvsNewState st nm S u) nm2 S u st.nextId hreuse
  · dsimp only
    rw [hfilterN, List.filter_append,
      List.filter_eq_nil_iff.mpr (fun a ha => by simp [holdFalse a ha])]
    simp [hnewMatch]

theorem create_vector_store_dedup_idempotent_witness :
    create_vector_store (create_vector_store stC2 "s" [3, 4] 0).2 "s" [3, 4] 0 =
        create_vector_store stC2 "s" [3, 4] 0 ∧
      (((create_vector_store stC2 "s" [3, 4] 0).2.localVS.filter
          (fun v => v.user == 0)).filter
          (vsMatches (create_vector_store stC2 "s" [3, 4] 0).2 [3, 4])).length = 1 :=
  create_vector_store_dedup_idempotent stC2 "s" "s" [3, 4] 0 (by decide)
    (by decide) (by decide)

/-! ### Lemmas for the delete-file cascade (C6) -/

lemma find?_fst_filter_ne (l : List (Nat × List Nat)) (k x : Nat) (hx : x ≠ k) :
    (l.filter (fun p => p.1 != k)).find? (fun p => p.1 == x) =
      l.find? (fun p => p.1 == x) := by
  induction l with
  | nil => rfl
  | cons a rest ih =>
    by_cases hak : a.1 = k
    · simp [List.filter_cons, List.find?_cons, hak, Ne.symm hx, ih]
    · by_cases hax : a.1 = x
      · simp [List.filter_cons, List.find?_cons, hak, hax, hx]
      · simp [List.filter_cons, List.find?_cons, hak, hax, ih]

lemma processVS_none (rem : Rem) (u fid : Nat) (st : St) (vsId : Nat)
    (h : remoteFind st vsId = none) :
    processVS rem u fid st vsId = st := by
  unfold processVS
  rw [h]

lemma processVS_delete (rem : Rem) (u fid : Nat) (st : St) (vsId : Nat)
    (h : remoteFind st vsId = some [fid]) :
    processVS rem u fid st vsId = (delete_vector_store rem st vsId u).2 := by
  unfold processVS
  rw [h]
  simp

lemma processVS_detach (rem : Rem) (u fid : Nat) (st : St) (vsId : Nat)
    (fids : List Nat) (h : remoteFind st vsId = some fids) (hne : fids ≠ [fid]) :
    processVS rem u fid st vsId = detachOne st vsId fid := by
  unfold processVS detachOne
  rw [h]
  simp [hne]

lemma detachOne_find_ne (s : St) (vsId fid x : Nat) (hx : x ≠ vsId) :
    remoteFind (detachOne s vsId fid) x = remoteFind s x := by
  have hrv : (detachOne s vsId fid).remoteVS =
      s.remoteVS.map
        (fun p => if p.1 == vsId then (p.1, p.2.filter (fun y => y != fid)) else p) :=
    rfl
  unfold remoteFind
  rw [hrv, find?_fst_map_ne s.remoteVS _ vsId x
    (fun p => by split <;> rfl)
    (fun p hp => by simp [hp]) hx]

lemma detachOne_find_self (s : St) (vsId fid : Nat) (m : List Nat)
    (hm : remoteFind s vsId = some m) :
    remoteFind (detachOne s vsId fid) vsId =
      some (m.filter (fun y => y != fid)) := by
  have hrv : (detachOne s vsId fid).remoteVS =
      s.remoteVS.map
        (fun p => if p.1 == vsId then (p.1, p.2.filter (fun y => y != fid)) else p) :=
    rfl
  unfold remoteFind at hm ⊢
  rw [hrv, find?_fst_map_self s.remoteVS _ vsId (fun p => by split <;> rfl)]
  obtain ⟨p, hp, hp2⟩ := Option.map_eq_some'.mp hm
  have hpk : p.1 = vsId := by simpa using List.find?_some hp
  rw [hp]
  simp [hpk, hp2]

lemma dvs_allOk_find_ne (st : St) (vsId u x : Nat) (hx : x ≠ vsId) :
    remoteFind (delete_vector_store allOk st vsId u).2 x = remoteFind st x := by
  cases hf : st.localVS.find?
      (fun v => v.vector_store_id == vsId && v.user == u) with
  | none => rw [dvs_notfound allOk st vsId u hf]
  | some v0 =>
    rw [dvs_allOk_found st vsId u v0 hf]
    have h2 := delAsstFold_remoteVS allOk u st (vsAsstIds st vsId u)
    unfold remoteFind
    rw [show ((true, dvsHappyState st vsId u) : Bool × St).2 = dvsHappyState st vsId u
      from rfl]
    rw [dvsHappyState_remoteVS, find?_fst_filter_ne st.remoteVS vsId x hx]

lemma dvs_allOk_assts_sub (st : St) (vsId u : Nat) (x : ARec) :
    x ∈ (delete_vector_store allOk st vsId u).2.localAssistants →
      x ∈ st.localAssistants := by
  cases hf : st.localVS.find?
      (fun v => v.vector_store_id == vsId && v.user == u) with
  | none => rw [dvs_notfound allOk st vsId u hf]; exact fun h => h
  | some v0 =>
    rw [dvs_allOk_found st vsId u v0 hf]
    intro hx
    rw [show ((true, dvsHappyState st vsId u) : Bool × St).2 = dvsHappyState st vsId u
      from rfl, dvsHappyState_assts] at hx
    exact (delAsstFold_allOk_assts u _ st x hx).1

lemma dvs_allOk_threads_sub (st : St) (vsId u : Nat) (t : TRec) :
    t ∈ (delete_vector_store allOk st vsId u).2.localThreads →
      t ∈ st.localThreads := by
  cases hf : st.localVS.find?
      (fun v => v.vector_store_id == vsId && v.user == u) with
  | none => rw [dvs_notfound allOk st vsId u hf]; exact fun h => h
  | some v0 =>
    rw [dvs_allOk_found st vsId u v0 hf]
    intro ht
    rw [show ((true, dvsHappyState st vsId u) : Bool × St).2 = dvsHappyState st vsId u
      from rfl, dvsHappyState_threads] at ht
    exact delAsstFold_threads_sub allOk u _ st t (delThreadFold_allOk_mem _ _ t ht).1

lemma dvs_allOk_localVS_sub (st : St) (vsId u : Nat) (w : VSRec) :
    w ∈ (delete_vector_store allOk st vsId u).2.localVS → w ∈ st.localVS := by
  cases hf : st.localVS.find?
      (fun v => v.vector_store_id == vsId && v.user == u) with
  | none => rw [dvs_notfound allOk st vsId u hf]; exact fun h => h
  | some v0 =>
    rw [dvs_allOk_found st vsId u v0 hf]
    intro hw
    rw [show ((true, dvsHappyState st vsId u) : Bool × St).2 = dvsHappyState st vsId u
      from rfl, dvsHappyState_localVS] at hw
    exact (List.mem_filter.mp hw).1

lemma dvs_allOk_localVS_mem_ne (st : St) (vsId u : Nat) (w : VSRec)
    (hw : w ∈ st.localVS) (hne : w.vector_store_id ≠ vsId) :
    w ∈ (delete_vector_store allOk st vsId u).2.localVS := by
  cases hf : st.localVS.find?
      (fun v => v.vector_store_id == vsId && v.user == u) with
  | none => rw [dvs_notfound allOk st vsId u hf]; exact hw
  | some v0 =>
    rw [dvs_allOk_found st vsId u v0 hf]
    rw [show ((true, dvsHappyState st vsId u) : Bool × St).2 = dvsHappyState st vsId u
      from rfl, dvsHappyState_localVS]
    exact List.mem_filter.mpr ⟨hw, by simpa using hne⟩

lemma processVS_allOk_find_ne (u fid : Nat) (st : St) (vsId x : Nat)
    (hx : x ≠ vsId) :
    remoteFind (processVS allOk u fid st vsId) x = remoteFind st x := by
  cases hm : remoteFind st vsId with
  | none => rw [processVS_none allOk u fid st vsId hm]
  | some fids =>
    by_cases hq : fids = [fid]
    · rw [hq] at hm
      rw [processVS_delete allOk u fid st vsId hm]
      exact dvs_allOk_find_ne st vsId u x hx
    · rw [processVS_detach allOk u fid st vsId fids hm hq]
      exact detachOne_find_ne st vsId fid x hx

lemma processVS_assts_sub (u fid : Nat) (st : St) (vsId : Nat) (x : ARec) :
    x ∈ (processVS allOk u fid st vsId).localAssistants →
      x ∈ st.localAssistants := by
  cases hm : remoteFind st vsId with
  | none => rw [processVS_none allOk u fid st vsId hm]; exact fun h => h
  | some fids =>
    by_cases hq : fids = [fid]
    · rw [hq] at hm
      rw [processVS_delete allOk u fid st vsId hm]
      exact dvs_allOk_assts_sub st vsId u x
    · rw [processVS_detach allOk u fid st vsId fids hm hq]
      exact fun h => h

lemma processVS_threads_sub (u fid : Nat) (st : St) (vsId : Nat) (t : TRec) :
    t ∈ (processVS allOk u fid st vsId).localThreads → t ∈ st.localThreads := by
  cases hm : remoteFind st vsId with
  | none => rw [processVS_none allOk u fid st vsId hm]; exact fun h => h
  | some fids =>
    by_cases hq : fids = [fid]
    · rw [hq] at hm
      rw [processVS_delete allOk u fid st vsId hm]
      exact dvs_allOk_threads_sub st vsId u t
    · rw [processVS_detach allOk u fid st vsId fids hm hq]
      exact fun h => h

lemma processVS_localVS_sub (u fid : Nat) (st : St) (vsId : Nat) (w : VSRec) :
    w ∈ (processVS allOk u fid st vsId).localVS → w ∈ st.localVS := by
  cases hm : remoteFind st vsId with
  | none => rw [processVS_none allOk u fid st vsId hm]; exact fun h => h
  | some fids =>
    by_cases hq : fids = [fid]
    · rw [hq] at hm
      rw [processVS_delete allOk u fid st vsId hm]
      exact dvs_allOk_localVS_sub st vsId u w
    · rw [processVS_detach allOk u fid st vsId fids hm hq]
      exact fun h => h

lemma processVS_localVS_mem_ne (u fid : Nat) (st : St) (vsId : Nat) (w : VSRec)
    (hw : w ∈ st.localVS) (hne : w.vector_store_id ≠ vsId) :
    w ∈ (processVS allOk u fid st vsId).localVS := by
  cases hm : remoteFind st vsId with
  | none => rw [processVS_none allOk u fid st vsId hm]; exact hw
  | some fids =>
    by_cases hq : fids = [fid]
    · rw [hq] at hm
      rw [processVS_delete allOk u fid st vsId hm]
      exact dvs_allOk_localVS_mem_ne st vsId u w hw hne
    · rw [processVS_detach allOk u fid st vsId fids hm hq]
      exact hw

lemma procFold_find_ne (u fid : Nat) (l : List Nat) (st : St) (x : Nat)
    (hx : x ∉ l) :
    remoteFind (l.foldl (processVS allOk u fid) st) x = remoteFind st x := by
  induction l generalizing st with
  | nil => rfl
  | cons a rest ih =>
    rw [List.foldl_cons, ih _ (fun h => hx (List.mem_cons_of_mem a h))]
    exact processVS_allOk_find_ne u fid st a x
      (fun h => hx (by rw [h]; exact List.mem_cons_self a rest))

lemma procFold_assts_sub (u fid : Nat) (l : List Nat) (st : St) (x : ARec) :
    x ∈ (l.foldl (processVS allOk u fid) st).localAssistants →
      x ∈ st.localAssistants := by
  induction l generalizing st with
  | nil => exact fun h => h
  | cons a rest ih =>
    intro h
    rw [List.foldl_cons] at h
    exact processVS_assts_sub u fid st a x (ih _ h)

lemma procFold_threads_sub (u fid : Nat) (l : List Nat) (st : St) (t : TRec) :
    t ∈ (l.foldl (processVS allOk u fid) st).localThreads →
      t ∈ st.localThreads := by
  induction l generalizing st with
  | nil => exact fun h => h
  | cons a rest ih =>
    intro h
    rw [List.foldl_cons] at h
    exact processVS_threads_sub u fid st a t (ih _ h)

lemma procFold_localVS_sub (u fid : Nat) (l : List Nat) (st : St) (w : VSRec) :
    w ∈ (l.foldl (processVS allOk u fid) st).localVS → w ∈ st.localVS := by
  induction l generalizing st with
  | nil => exact fun h => h
  | cons a rest ih =>
    intro h
    rw [List.foldl_cons] at h
    exact processVS_localVS_sub u fid st a w (ih _ h)

lemma procFold_localVS_mem (u fid : Nat) (l : List Nat) (st : St) (w : VSRec)
    (hw : w ∈ st.localVS) (h : w.vector_store_id ∉ l) :
    w ∈ (l.foldl (processVS allOk u fid) st).localVS := by
  induction l generalizing st with
  | nil => exact hw
  | cons a rest ih =>
    rw [List.foldl_cons]
    refine ih _ (processVS_localVS_mem_ne u fid st a w hw
      (fun heq => h (by rw [heq]; exact List.mem_cons_self a rest)))
      (fun hmem => h (List.mem_cons_of_mem a hmem))

lemma delete_file_allOk_found (st : St) (fid u : Nat) (f0 : FileRec)
    (hf : st.localFiles.find? (fun f => f.file_id == fid && f.user == u) =
      some f0) :
    delete_file allOk st fid u =
      (true,
        { (affectedIds st fid u).foldl (processVS allOk u fid) st with
          remoteFiles :=
            ((affectedIds st fid u).foldl (processVS allOk u fid)
              st).remoteFiles.filter (fun x => x != fid),
          localFiles :=
            ((affectedIds st fid u).foldl (processVS allOk u fid)
              st).localFiles.filter (fun f => f.file_id != fid) }) := by
  unfold delete_file affectedIds
  rw [hf]
  rfl

lemma affected_split (st : St) (fid u : Nat) (v : VSRec) (hv : v ∈ st.localVS)
    (hu : v.user = u) (fids : List Nat)
    (hrem : remoteFind st v.vector_store_id = some fids) (hcont : fid ∈ fids)
    (hnodup : (st.localVS.map (fun v => v.vector_store_id)).Nodup) :
    ∃ pre post, affectedIds st fid u = pre ++ v.vector_store_id :: post ∧
      v.vector_store_id ∉ pre ∧ v.vector_store_id ∉ post := by
  have hmem : v.vector_store_id ∈ affectedIds st fid u := by
    unfold affectedIds
    apply List.mem_map.mpr
    refine ⟨v, List.mem_filter.mpr ⟨hv, ?_⟩, rfl⟩
    rw [hrem]
    simp [hu, hcont]
  obtain ⟨pre, post, hsplit⟩ := List.append_of_mem hmem
  have hnd : (affectedIds st fid u).Nodup := by
    unfold affectedIds
    have hsub : List.Sublist
        ((st.localVS.filter
          (fun v => v.user == u &&
            (match remoteFind st v.vector_store_id with
             | none => false
             | some fids => fids.contains fid))).map
          (fun v => v.vector_store_id))
        (st.localVS.map (fun v => v.vector_store_id)) :=
      (List.filter_sublist st.localVS).map (fun v => v.vector_store_id)
    exact hsub.nodup hnodup
  rw [hsplit] at hnd
  refine ⟨pre, post, hsplit, ?_, ?_⟩
  · intro hk
    exact (List.disjoint_of_nodup_append hnd) hk (List.mem_cons_self _ _)
  · exact (List.nodup_cons.mp hnd.of_append_right).1

/-- C6: `delete_file` cascades on the last file.  When the file exists for
the user and local store ids are unique: (1) every store of the user whose
current remote membership is exactly `[fid]` is deleted through
`delete_vector_store` — afterwards no local record, no assistant and no
thread referencing that store remains (given its referencing records
belong to the user); (2) every store of the user containing the file among
others keeps its local record and merely has the file detached from its
remote membership. -/
theorem delete_file_cascade_on_last (st : St) (fid u : Nat)
    (hfile : (st.localFiles.find?
      (fun f => f.file_id == fid && f.user == u)).isSome)
    (hnodup : (st.localVS.map (fun v => v.vector_store_id)).Nodup) :
    (∀ v ∈ st.localVS, v.user = u →
      remoteFind st v.vector_store_id = some [fid] →
      (∀ a ∈ st.localAssistants, a.vector_store = v.vector_store_id →
        a.user = u) →
      (∀ t ∈ st.localThreads, t.vector_store = some v.vector_store_id →
        t.user = u) →
      ((delete_file allOk st fid u).2.localVS.filter
          (fun w => w.vector_store_id == v.vector_store_id) = [] ∧
        (delete_file allOk st fid u).2.localAssistants.filter
          (fun a => a.vector_store == v.vector_store_id) = [] ∧
        (delete_file allOk st fid u).2.localThreads.filter
          (fun t => t.vector_store == some v.vector_store_id) = [])) ∧
    (∀ v ∈ st.localVS, v.user = u → ∀ fids,
      remoteFind st v.vector_store_id = some fids → fid ∈ fids →
      fids ≠ [fid] →
      (v ∈ (delete_file allOk st fid u).2.localVS ∧
        remoteFind (delete_file allOk st fid u).2 v.vector_store_id =
          some (fids.filter (fun y => y != fid)))) := by
  obtain ⟨f0, hf⟩ := Option.isSome_iff_exists.mp hfile
  rw [delete_file_allOk_found st fid u f0 hf]
  constructor
  · intro v hv hu hrem hA hT
    obtain ⟨pre, post, hsp, hpre, hpost⟩ :=
      affected_split st fid u v hv hu [fid] hrem (by simp) hnodup
    have hfold : (affectedIds st fid u).foldl (processVS allOk u fid) st =
        post.foldl (processVS allOk u fid)
          (processVS allOk u fid (pre.foldl (processVS allOk u fid) st)
            v.vector_store_id) := by
      rw [hsp, List.foldl_append, List.foldl_cons]
    have hremPre : remoteFind (pre.foldl (processVS allOk u fid) st)
        v.vector_store_id = some [fid] := by
      rw [procFold_find_ne u fid pre st _ hpre]
      exact hrem
    have hvPre : v ∈ (pre.foldl (processVS allOk u fid) st).localVS :=
      procFold_localVS_mem u fid pre st v hv hpre
    have hstep : processVS allOk u fid (pre.foldl (processVS allOk u fid) st)
        v.vector_store_id =
        (delete_vector_store allOk (pre.foldl (processVS allOk u fid) st)
          v.vector_store_id u).2 :=
      processVS_delete allOk u fid _ _ hremPre
    have hfindPre : ((pre.foldl (processVS allOk u fid) st).localVS.find?
        (fun w => w.vector_store_id == v.vector_store_id && w.user == u)).isSome :=
      List.find?_isSome.mpr ⟨v, hvPre, by simp [hu]⟩
    obtain ⟨w0, hw0⟩ := Option.isSome_iff_exists.mp hfindPre
    have hsucc : (delete_vector_store allOk
        (pre.foldl (processVS allOk u fid) st) v.vector_store_id u).1 = true := by
      rw [dvs_allOk_found _ _ _ w0 hw0]
    have hpost3 := dvs_allOk_post (pre.foldl (processVS allOk u fid) st)
      v.vector_store_id u
      (fun a ha hvs => hA a (procFold_assts_sub u fid pre st a ha) hvs)
      (fun t ht hvs => hT t (procFold_threads_sub u fid pre st t ht) hvs)
      hsucc
    refine ⟨?_, ?_, ?_⟩
    · apply List.filter_eq_nil_iff.mpr
      intro w hw
      have hw2 : w ∈ ((affectedIds st fid u).foldl (processVS allOk u fid)
          st).localVS := hw
      rw [hfold, hstep] at hw2
      have hw3 := procFold_localVS_sub u fid post _ w hw2
      exact List.filter_eq_nil_iff.mp hpost3.1 w hw3
    · apply List.filter_eq_nil_iff.mpr
      intro a ha
      have ha2 : a ∈ ((affectedIds st fid u).foldl (processVS allOk u fid)
          st).localAssistants := ha
      rw [hfold, hstep] at ha2
      have ha3 := procFold_assts_sub u fid post _ a ha2
      exact List.filter_eq_nil_iff.mp hpost3.2.1 a ha3
    · apply List.filter_eq_nil_iff.mpr
      intro t ht
      have ht2 : t ∈ ((affectedIds st fid u).foldl (processVS allOk u fid)
          st).localThreads := ht
      rw [hfold, hstep] at ht2
      have ht3 := procFold_threads_sub u fid post _ t ht2
      exact List.filter_eq_nil_iff.mp hpost3.2.2 t ht3
  · intro v hv hu fids hrem hcont hne
    obtain ⟨pre, post, hsp, hpre, hpost⟩ :=
      affected_split st fid u v hv hu fids hrem hcont hnodup
    have hfold : (affectedIds st fid u).foldl (processVS allOk u fid) st =
        post.foldl (processVS allOk u fid)
          (processVS allOk u fid (pre.foldl (processVS allOk u fid) st)
            v.vector_store_id) := by
      rw [hsp, List.foldl_append, List.foldl_cons]
    have hremPre : remoteFind (pre.foldl (processVS allOk u fid) st)
        v.vector_store_id = some fids := by
      rw [procFold_find_ne u fid pre st _ hpre]
      exact hrem
    have hvPre : v ∈ (pre.foldl (processVS allOk u fid) st).localVS :=
      procFold_localVS_mem u fid pre st v hv hpre
    have hstep : processVS allOk u fid (pre.foldl (processVS allOk u fid) st)
        v.vector_store_id =
        detachOne (pre.foldl (processVS allOk u fid) st) v.vector_store_id fid :=
      processVS_detach allOk u fid _ _ fids hremPre hne
    have hvStep : v ∈ (detachOne (pre.foldl (processVS allOk u fid) st)
        v.vector_store_id fid).localVS := hvPre
    have hremStep : remoteFind (detachOne (pre.foldl (processVS allOk u fid) st)
        v.vector_store_id fid) v.vector_store_id =
        some (fids.filter (fun y => y != fid)) :=
      detachOne_find_self _ _ _ fids hremPre
    constructor
    · show v ∈ ((affectedIds st fid u).foldl (processVS allOk u fid) st).localVS
      rw [hfold, hstep]
      exact procFold_localVS_mem u fid post _ v hvStep hpost
    · show remoteFind ((affectedIds st fid u).foldl (processVS allOk u fid) st)
          v.vector_store_id = some (fids.filter (fun y => y != fid))
      rw [hfold, hstep, procFold_find_ne u fid post _ _ hpost]
      exact hremStep

/-! ### Lemmas for message saving and thread ordering (C10) -/

lemma save_message_found (st : St) (threadId : Nat) (role content : String)
    (th : TRec)
    (hf : st.localThreads.find? (fun t => t.thread_id == threadId) = some th) :
    save_message st threadId role content =
      (some ⟨th.thread_id, role, content, st.clock⟩,
        { st with
          clock := st.clock + 2,
          localMessages :=
            st.localMessages ++ [⟨th.thread_id, role, content, st.clock⟩],
          localThreads := st.localThreads.map
            (fun t => if t.thread_id == th.thread_id then
              { th with updated_at := st.clock + 1 } else t) }) := by
  unfold save_message
  rw [hf]

lemma get_threads_sorted (st : St) (u : Nat) :
    (get_threads st u).Sorted thGe :=
  List.sorted_insertionSort thGe (st.localThreads.filter (fun t => t.user == u))

lemma sortDesc_head_of_strict_max {l : List TRec} {x : TRec} (hx : x ∈ l)
    (hmax : ∀ y ∈ l, y ≠ x → y.updated_at < x.updated_at) :
    (List.insertionSort thGe l).head? = some x := by
  cases hsort : List.insertionSort thGe l with
  | nil =>
    have hmem : x ∈ List.insertionSort thGe l :=
      (List.perm_insertionSort thGe l).mem_iff.mpr hx
    rw [hsort] at hmem
    cases hmem
  | cons b rest =>
    have hbl : b ∈ l := by
      have hmem : b ∈ List.insertionSort thGe l := by
        rw [hsort]
        exact List.mem_cons_self _ _
      exact (List.perm_insertionSort thGe l).mem_iff.mp hmem
    have hsorted := List.sorted_insertionSort thGe l
    rw [hsort] at hsorted
    have hball := (List.sorted_cons.mp hsorted).1
    have hxs : x ∈ b :: rest := by
      rw [← hsort]
      exact (List.perm_insertionSort thGe l).mem_iff.mpr hx
    by_cases hbx : b = x
    · simp [hbx]
    · exfalso
      have hlt : b.updated_at < x.updated_at := hmax b hbl hbx
      have hxr : x ∈ rest := by
        cases List.mem_cons.mp hxs with
        | inl h => exact absurd h.symm hbx
        | inr h => exact h
      have hle : x.updated_at ≤ b.updated_at := hball x hxr
      exact Nat.lt_irrefl _ (Nat.lt_of_le_of_lt hle hlt)

/-- C10: a successful `save_message(thread_id, role, content)` returns the
new message, appends it to the message mirror, rewrites exactly the owning
thread's record with `updated_at` set to the (fresh) current time — all
its other fields and every other thread record unchanged — and
`get_threads` lists a user's threads sorted by `updated_at` descending, so
when every other thread of the user is strictly older the freshly
messaged thread comes first. -/
theorem save_message_touch_and_order (st : St) (threadId : Nat)
    (role content : String) (th : TRec)
    (hf : st.localThreads.find? (fun t => t.thread_id == threadId) = some th) :
    (save_message st threadId role content).1 =
        some ⟨th.thread_id, role, content, st.clock⟩ ∧
      (save_message st threadId role content).2.localMessages =
        st.localMessages ++ [⟨th.thread_id, role, content, st.clock⟩] ∧
      (save_message st threadId role content).2.localThreads =
        st.localThreads.map
          (fun t => if t.thread_id == th.thread_id then
            { th with updated_at := st.clock + 1 } else t) ∧
      (get_threads (save_message st threadId role content).2 th.user).Sorted
        thGe ∧
      ((∀ t ∈ st.localThreads, t.user = th.user → t.thread_id ≠ th.thread_id →
          t.updated_at < st.clock + 1) →
        (get_threads (save_message st threadId role content).2 th.user).head? =
          some { th with updated_at := st.clock + 1 }) := by
  rw [save_message_found st threadId role content th hf]
  refine ⟨rfl, rfl, rfl, get_threads_sorted _ th.user, ?_⟩
  intro hmax
  have hth : th ∈ st.localThreads := List.mem_of_find?_eq_some hf
  apply sortDesc_head_of_strict_max
  · apply List.mem_filter.mpr
    constructor
    · apply List.mem_map.mpr
      exact ⟨th, hth, by simp⟩
    · simp [show ({ th with updated_at := st.clock + 1 } : TRec).user = th.user
        from rfl]
  · intro y hy hyne
    obtain ⟨hy1, hy2⟩ := List.mem_filter.mp hy
    obtain ⟨t, ht, hteq⟩ := List.mem_map.mp hy1
    by_cases htid : t.thread_id = th.thread_id
    · exfalso
      apply hyne
      rw [← hteq]
      simp [htid]
    · have hyt : y = t := by
        rw [← hteq]
        simp [htid]
      rw [hyt]
      have huser : t.user = th.user := by
        rw [hyt] at hy2
        simpa using hy2
      exact hmax t ht huser htid

theorem save_message_touch_and_order_witness :
    (save_message stC10 1 "user" "hi").1 = some ⟨1, "user", "hi", 40⟩ ∧
      (save_message stC10 1 "user" "hi").2.localMessages =
        stC10.localMessages ++ [⟨1, "user", "hi", 40⟩] ∧
      (save_message stC10 1 "user" "hi").2.localThreads =
        stC10.localThreads.map
          (fun t => if t.thread_id == 1 then
            ⟨1, none, none, "a", 0, 5, 41⟩ else t) ∧
      (get_threads (save_message stC10 1 "user" "hi").2 0).Sorted thGe ∧
      ((∀ t ∈ stC10.localThreads, t.user = 0 → t.thread_id ≠ 1 →
          t.updated_at < 41) →
        (get_threads (save_message stC10 1 "user" "hi").2 0).head? =
          some ⟨1, none, none, "a", 0, 5, 41⟩) :=
  save_message_touch_and_order stC10 1 "user" "hi"
    ⟨1, none, none, "a", 0, 5, 9⟩ (by decide)

theorem delete_file_cascade_on_last_witness :
    ((delete_file allOk stC6 5 0).2.localVS.filter
        (fun w => w.vector_store_id == 10) = [] ∧
      (delete_file allOk stC6 5 0).2.localAssistants.filter
        (fun a => a.vector_store == 10) = [] ∧
      (delete_file allOk stC6 5 0).2.localThreads.filter
        (fun t => t.vector_store == some 10) = []) ∧
    ((⟨11, "multi", 0, 2⟩ : VSRec) ∈ (delete_file allOk stC6 5 0).2.localVS ∧
      remoteFind (delete_file allOk stC6 5 0).2 11 =
        some ([5, 6].filter (fun y => y != 5))) :=
  ⟨(delete_file_cascade_on_last stC6 5 0 (by decide) (by decide)).1
      ⟨10, "solo", 0, 1⟩ (by decide) rfl (by decide) (by decide) (by decide),
    (delete_file_cascade_on_last stC6 5 0 (by decide) (by decide)).2
      ⟨11, "multi", 0, 2⟩ (by decide) rfl [5, 6] (by decide) (by decide)
      (by decide)⟩

theorem delete_vector_store_cascade_complete_witness :
    (delete_vector_store allOk stC3 10 0).2.localVS.filter
        (fun w => w.vector_store_id == 10) = [] ∧
      (delete_vector_store allOk stC3 10 0).2.localAssistants.filter
        (fun a => a.vector_store == 10) = [] ∧
      (delete_vector_store allOk stC3 10 0).2.localThreads.filter
        (fun t => t.vector_store == some 10) = [] :=
  delete_vector_store_cascade_complete stC3 10 0 (by decide) (by decide)
    (by decide)

end StudyBuddy

